import Mathlib

/-!
Verification of the flowing-text layout and pagination engine
(`pdfRender` in the flowingText plugin).

The numeric computations of the source are embedded over `ℚ`
(JavaScript numbers, with all operations exact on the inputs considered).
External collaborators (font metrics, grapheme segmentation) are passed in
as function parameters, exactly as the source consumes them through
`widthOfTextAtSize` and `Intl.Segmenter`.
-/

namespace FlowingText

/-- Alignment values of the schema (`alignment` field). -/
inductive Alignment
  | left
  | center
  | right
  | justify
deriving DecidableEq, Repr

/-- Vertical alignment values of the schema (`verticalAlignment` field). -/
inductive VAlign
  | top
  | middle
  | bottom
deriving DecidableEq, Repr

/-- Modelled from the spec: the mm→pt conversion boundary function
(`mm2pt` lives in the shared package, not in the core source); the spec
fixes only that it is the single mm→pt conversion.  The factor 2.8346
(72/25.4 rounded as the tool uses it) is positive; no claim depends on its
exact value. -/
def mm2pt (mm : ℚ) : ℚ := mm * 2.8346

/-- Continuation-page top margin in mm (source: `topMarginMm = 20`). -/
def topMarginMm : ℚ := 20

/-- Continuation-page bottom margin in mm (source: `bottomMarginMm = 20`). -/
def bottomMarginMm : ℚ := 20

/-- Nominal page height in mm (source: `pageHeightMm = 297`). -/
def pageHeightMm : ℚ := 297

/-- The environment of one `pdfRender` call: the schema's style values
(after defaulting), the box geometry delivered by
`convertForPdfLayoutProps` (pt), the raw schema position/height (mm) used
by the paginator, the font metrics (`heightOfFontAtSize`,
`getFontDescentInPt`), and the two external capabilities: text
measurement (`widthOfTextAtSize` at the chosen size and character
spacing) and grapheme counting (`Intl.Segmenter`). -/
structure Env where
  /-- `schema.position.y` in mm. -/
  positionY : ℚ
  /-- `schema.height` in mm. -/
  heightMm : ℚ
  /-- box x in pt (from `convertForPdfLayoutProps`). -/
  x : ℚ
  /-- box y in pt (from `convertForPdfLayoutProps`). -/
  yPt : ℚ
  /-- box width in pt. -/
  width : ℚ
  /-- box height in pt. -/
  height : ℚ
  /-- `page.getHeight()` in pt. -/
  pageHeight : ℚ
  fontSize : ℚ
  lineHeight : ℚ
  characterSpacing : ℚ
  alignment : Alignment
  verticalAlignment : VAlign
  /-- whether `schema.backgroundColor` is set (truthy). -/
  backgroundColor : Bool
  /-- `heightOfFontAtSize(fontKitFont, fontSize)`. -/
  firstLineTextHeight : ℚ
  /-- `getFontDescentInPt(fontKitFont, fontSize)`. -/
  descent : ℚ
  /-- `pdfDoc.getPages().length` before rendering. -/
  initialPages : Nat
  /-- `widthOfTextAtSize(s, fontKitFont, fontSize, characterSpacing)`. -/
  measure : String → ℚ
  /-- number of grapheme clusters of a string (`Intl.Segmenter`). -/
  gcount : String → Nat

/-- `halfLineHeightAdjustment = lineHeight === 0 ? 0 : ((lineHeight - 1) * fontSize) / 2`. -/
def halfLineHeightAdjustment (env : Env) : ℚ :=
  if env.lineHeight = 0 then 0 else (env.lineHeight - 1) * env.fontSize / 2

/-- The vertical-alignment calculator: `yOffset` of the source
(initialised to `0`, then set by the `if`/`else if` chain on
`verticalAlignment`), for a text of `n` wrapped lines. -/
def calcYOffset (env : Env) (n : Nat) : ℚ :=
  if env.verticalAlignment = VAlign.top then
    env.firstLineTextHeight + halfLineHeightAdjustment env
  else
    let otherLinesHeight := env.lineHeight * env.fontSize * ((n : ℚ) - 1)
    if env.verticalAlignment = VAlign.bottom then
      env.height - otherLinesHeight + env.descent - halfLineHeightAdjustment env
    else if env.verticalAlignment = VAlign.middle then
      (env.height - otherLinesHeight - env.firstLineTextHeight + env.descent) / 2 +
        env.firstLineTextHeight
    else 0

/-- `line.replace('\n', '')` on the character list: JavaScript
`String.replace` with a string pattern removes only the first
occurrence. -/
def removeFirstNewlineAux : List Char → List Char
  | [] => []
  | c :: cs => if c = '\n' then cs else c :: removeFirstNewlineAux cs

/-- `line.replace('\n', '')`: the line with only the first occurrence of
`'\n'` removed. -/
def removeFirstNewline (s : String) : String :=
  String.mk (removeFirstNewlineAux s.data)

/-- Split a character list at every occurrence of `c`
(like JavaScript `String.split`, the separators are dropped and empty
pieces are kept). -/
def splitOnChar (c : Char) : List Char → List (List Char)
  | [] => [[]]
  | x :: xs =>
    let r := splitOnChar c xs
    if x = c then [] :: r
    else
      match r with
      | [] => [[x]]
      | y :: ys => (x :: y) :: ys

/-- Modelled from the spec: the greedy word-wrap core of the Line Breaker
(`splitTextToSize` lives in `helper.js`, not in the core source).
Accumulates whitespace-delimited words into the current line; when
appending the next word would exceed the box width the current line is
closed (keeping its separating space, since whitespace is preserved
exactly as given) and the word starts a new line.  A single word longer
than the box is placed alone on its own line. -/
def wrapWords (measure : String → ℚ) (boxWidth : ℚ) : String → List String → List String
  | cur, [] => [cur]
  | cur, w :: ws =>
    if measure (cur ++ " " ++ w) ≤ boxWidth then
      wrapWords measure boxWidth (cur ++ " " ++ w) ws
    else
      (cur ++ " ") :: wrapWords measure boxWidth w ws

/-- Modelled from the spec: wrap one paragraph (a maximal `'\n'`-free
piece of the value) into lines. -/
def wrapLine (measure : String → ℚ) (boxWidth : ℚ) (p : String) : List String :=
  match (splitOnChar ' ' p.data).map String.mk with
  | [] => [""]
  | w :: ws => wrapWords measure boxWidth w ws

/-- Modelled from the spec: a line produced by an explicit break keeps its
terminating `'\n'` (the renderer tests `line.slice(-1) !== '\n'` and
strips one `'\n'` before drawing, so explicit-break lines carry it). -/
def markBreak : List String → List String
  | [] => ["\n"]
  | [l] => [l ++ "\n"]
  | l :: ls => l :: markBreak ls

/-- Modelled from the spec: wrap each paragraph and mark every paragraph
except the last with its explicit break. -/
def splitParas (measure : String → ℚ) (boxWidth : ℚ) : List String → List String
  | [] => []
  | [p] => wrapLine measure boxWidth p
  | p :: ps => markBreak (wrapLine measure boxWidth p) ++ splitParas measure boxWidth ps

/-- Modelled from the spec: the Line Breaker `splitTextToSize`
(in `helper.js`, not in the core source).  Explicit `'\n'` always forces
a break; within a paragraph a greedy word-wrap is applied; the empty
input yields zero lines. -/
def splitTextToSize (measure : String → ℚ) (boxWidth : ℚ) (value : String) : List String :=
  if value = "" then []
  else splitParas measure boxWidth ((splitOnChar '\n' value.data).map String.mk)

/-- JavaScript array read `acc[k]`: `none` when the index is out of range
or a hole. -/
def getIdx : List (Option α) → Nat → Option α
  | [], _ => none
  | x :: _, 0 => x
  | _ :: xs, k + 1 => getIdx xs k

/-- JavaScript indexed assignment `acc[k] = v`: writes in place when `k`
is in range, otherwise extends the array with holes up to index `k`. -/
def setIdx : List (Option α) → Nat → α → List (Option α)
  | [], 0, v => [some v]
  | [], k + 1, v => none :: setIdx [] k v
  | _ :: xs, 0, v => some v :: xs
  | x :: xs, k + 1, v => x :: setIdx xs k v

/-- The mutable state of the `lines.reduce` paginator: `pageCounter`,
`indexOffset`, the current page's top/bottom bounds in mm, and the
accumulator `acc` (a JavaScript array that may contain holes). -/
structure PgState where
  pageCounter : Nat
  indexOffset : Nat
  yTopMm : ℚ
  yBottomMm : ℚ
  acc : List (Option (List String))
deriving Repr

/-- One step of the `lines.reduce` callback: `current` is the line,
`index` its index in `lines`. -/
def lineReduceStep (env : Env) (yOffset : ℚ) (s : PgState) (p : Nat × String) : PgState :=
  let rowYOffset := env.lineHeight * env.fontSize * ((p.1 : ℚ) - (s.indexOffset : ℚ))
  let yLine := env.pageHeight - mm2pt s.yTopMm - yOffset - rowYOffset
  if yLine ≤ env.pageHeight - mm2pt s.yBottomMm then
    { pageCounter := s.pageCounter + 1
      indexOffset := p.1
      yTopMm := topMarginMm
      yBottomMm := pageHeightMm - bottomMarginMm
      acc := setIdx s.acc (s.pageCounter + 1) [p.2] }
  else
    { s with
      acc :=
        match getIdx s.acc s.pageCounter with
        | some page => setIdx s.acc s.pageCounter (page ++ [p.2])
        | none => setIdx s.acc s.pageCounter [p.2] }

/-- The initial paginator state: the first page uses the caller's
box-relative bounds `schema.position.y` and
`schema.position.y + schema.height`. -/
def initState (env : Env) : PgState :=
  { pageCounter := 0
    indexOffset := 0
    yTopMm := env.positionY
    yBottomMm := env.positionY + env.heightMm
    acc := [] }

/-- `linesSplittedPages`: the accumulator after reducing over all wrapped
lines with their indices. -/
def linesSplittedPages (env : Env) (yOffset : ℚ) (lines : List String) :
    List (Option (List String)) :=
  ((lines.enum).foldl (lineReduceStep env yOffset) (initState env)).acc

/-- `Array.prototype.forEach` over a possibly sparse array: visits the
present entries with their indices, skipping holes. -/
def extractPages : Nat → List (Option (List String)) → List (Nat × List String)
  | _, [] => []
  | i, none :: rest => extractPages (i + 1) rest
  | i, some v :: rest => (i, v) :: extractPages (i + 1) rest

/-- The wrapped lines of one render call. -/
def linesOf (env : Env) (value : String) : List String :=
  splitTextToSize env.measure env.width value

/-- The first-line baseline offset of one render call. -/
def yOffsetOf (env : Env) (value : String) : ℚ :=
  calcYOffset env (linesOf env value).length

/-- The pages the paginator assigns, as (page index, lines) pairs in
iteration order. -/
def pagesOf (env : Env) (value : String) : List (Nat × List String) :=
  extractPages 0 (linesSplittedPages env (yOffsetOf env value) (linesOf env value))

/-- The observable drawing effects of `pdfRender`: rectangle draws,
page additions, character-spacing operators and text draws, each tagged
with the page it targets. -/
inductive Op
  /-- `page.drawRectangle` of the background color on the schema's page. -/
  | fillRect (x y w h : ℚ)
  /-- `pdfDoc.addPage()`. -/
  | addPage
  /-- `pages[page].drawRectangle({x, y, width, height, borderWidth})`. -/
  | borderRect (page : Nat) (x y w h bw : ℚ)
  /-- `pages[page].pushOperators(pdfLib.setCharacterSpacing(s))`. -/
  | setCharSpacing (page : Nat) (s : ℚ)
  /-- `pages[page].drawText(text, {x, y, size, lineHeight, ...})`. -/
  | drawText (page : Nat) (text : String) (x y size lineHeightPt : ℚ)
deriving DecidableEq, Repr

/-- The effective character spacing pushed before drawing one line:
base spacing, widened by `(width - textWidth) / len` when the alignment
is `justify` and the (possibly reassigned) line does not end in `'\n'`;
`len` is the grapheme count of the trimmed text. -/
def spacingOf (env : Env) (line : String) : ℚ :=
  let trimmed := removeFirstNewline line
  let textWidth := env.measure trimmed
  let line' := if line = "" then "\r\n" else line
  if env.alignment = Alignment.justify ∧ line'.data.getLast? ≠ some '\n' then
    env.characterSpacing + (env.width - textWidth) / (env.gcount trimmed : ℚ)
  else env.characterSpacing

/-- The horizontal draw position `xLine` for a line of measured width
`textWidth`. -/
def xLineOf (env : Env) (textWidth : ℚ) : ℚ :=
  if env.alignment = Alignment.center then env.x + (env.width - textWidth) / 2
  else if env.alignment = Alignment.right then env.x + env.width - textWidth
  else env.x

/-- The vertical draw position `yLine` of row `rowIndex` on a page whose
top margin is `yTopMm`. -/
def yLineOf (env : Env) (yTopMm yOffset : ℚ) (rowIndex : Nat) : ℚ :=
  env.pageHeight - mm2pt yTopMm - yOffset - env.lineHeight * env.fontSize * (rowIndex : ℚ)

/-- The operations emitted for one line of a page (the inner
`linesInPage.forEach` body). -/
def renderLineOps (env : Env) (pg : Nat) (yTopMm yOffset : ℚ) (rowIndex : Nat)
    (line : String) : List Op :=
  [Op.setCharSpacing pg (spacingOf env line),
   Op.drawText pg (removeFirstNewline line)
     (xLineOf env (env.measure (removeFirstNewline line)))
     (yLineOf env yTopMm yOffset rowIndex)
     env.fontSize (env.lineHeight * env.fontSize)]

/-- The footer marker rectangle: (10mm, 10mm), 190mm × 5mm, border
width 1, drawn on page `pg`. -/
def markerFooter (pg : Nat) : Op :=
  Op.borderRect pg (mm2pt 10) (mm2pt 10) (mm2pt 190) (mm2pt 5) 1

/-- The header marker rectangle of a continuation page: (10mm,
pageHeight − 20mm), 190mm × 5mm, border width 1. -/
def markerHeader (env : Env) (pg : Nat) : Op :=
  Op.borderRect pg (mm2pt 10) (env.pageHeight - mm2pt 20) (mm2pt 190) (mm2pt 5) 1

/-- The operations emitted for one page of `linesSplittedPages.forEach`:
a possible `addPage` (when `pages[pageCount]` does not exist yet, i.e.
`curLen ≤ pageCount`), the marker rectangles, then the per-line
operations with the page's top margin. -/
def renderPageOps (env : Env) (yOffset : ℚ) (curLen pageCount : Nat)
    (linesInPage : List String) : List Op :=
  (if pageCount ≠ 0 ∧ curLen ≤ pageCount then [Op.addPage] else []) ++
  (if pageCount ≠ 0 then [markerHeader env pageCount, markerFooter pageCount]
   else [markerFooter pageCount]) ++
  ((linesInPage.enum).map (fun q =>
    renderLineOps env pageCount (if pageCount = 0 then env.positionY else topMarginMm)
      yOffset q.1 q.2)).flatten

/-- Emit all pages, threading the current length of the `pages` array
(grown by one on each `addPage`). -/
def emitAllPages (env : Env) (yOffset : ℚ) : Nat → List (Nat × List String) → List Op
  | _, [] => []
  | curLen, (k, ls) :: rest =>
    renderPageOps env yOffset curLen k ls ++
      emitAllPages env yOffset (if k ≠ 0 ∧ curLen ≤ k then curLen + 1 else curLen) rest

/-- The full observable effect of `pdfRender`: nothing when the value is
absent or empty (`if (!value) return`), otherwise the optional background
rectangle followed by every page's operations. -/
def pdfRenderOps (env : Env) (value? : Option String) : List Op :=
  match value? with
  | none => []
  | some value =>
    if value = "" then []
    else
      (if env.backgroundColor then [Op.fillRect env.x env.yPt env.width env.height] else []) ++
        emitAllPages env (yOffsetOf env value) env.initialPages (pagesOf env value)

/-- A concrete justify-aligned environment: box width 40pt, every
character 10pt wide, one grapheme per character, base character
spacing 0. -/
def envJ : Env :=
  { positionY := 0, heightMm := 100, x := 0, yPt := 0, width := 40, height := 283
    pageHeight := 1000, fontSize := 10, lineHeight := 1, characterSpacing := 0
    alignment := Alignment.justify, verticalAlignment := VAlign.top
    backgroundColor := false, firstLineTextHeight := 10, descent := 0
    initialPages := 1
    measure := fun s => (s.data.length : ℚ) * 10
    gcount := fun s => s.data.length }

/-- A concrete environment whose box is so short (1mm) that the very
first line already falls beyond the first page's bottom bound. -/
def envC4 : Env :=
  { envJ with heightMm := 1, pageHeight := 100, width := 1000 }

/-- A concrete left-aligned environment where six lines overflow onto a
second page. -/
def envW : Env :=
  { envJ with
    heightMm := 20
    pageHeight := 100
    width := 1000
    alignment := Alignment.left }

/-- Reading back the index just written by a JavaScript indexed
assignment yields the written value. -/
theorem getIdx_setIdx : ∀ (l : List (Option α)) (k : Nat) (v : α),
    getIdx (setIdx l k v) k = some v := by
  intro l
  induction l with
  | nil =>
    intro k v
    induction k with
    | zero => rfl
    | succ n ih => simpa [setIdx, getIdx] using ih
  | cons x xs ih =>
    intro k v
    cases k with
    | zero => rfl
    | succ n => simpa [setIdx, getIdx] using ih n v

/-- Writing one past the end of the array appends. -/
theorem setIdx_append_length : ∀ (l : List (Option α)) (v : α),
    setIdx l l.length v = l ++ [some v] := by
  intro l
  induction l with
  | nil => intro v; rfl
  | cons x xs ih => intro v; simp [setIdx, ih]

/-- Reading the element sitting right after a prefix of length `k`. -/
theorem getIdx_append : ∀ (l : List (Option α)) (x : Option α) (rest : List (Option α)),
    getIdx (l ++ x :: rest) l.length = x := by
  intro l
  induction l with
  | nil => intro x rest; rfl
  | cons y ys ih => intro x rest; simpa [getIdx] using ih x rest

/-- Writing the element sitting right after a prefix of length `k`. -/
theorem setIdx_append : ∀ (l : List (Option α)) (x : Option α) (rest : List (Option α)) (v : α),
    setIdx (l ++ x :: rest) l.length v = l ++ some v :: rest := by
  intro l
  induction l with
  | nil => intro x rest v; rfl
  | cons y ys ih => intro x rest v; simpa [setIdx] using ih x rest v

/-- `forEach` over an array of present entries visits them in order. -/
theorem extractPages_map_some_snd : ∀ (ps : List (List String)) (i : Nat),
    (extractPages i (ps.map some)).map Prod.snd = ps := by
  intro ps
  induction ps with
  | nil => intro i; rfl
  | cons p rest ih => intro i; simpa [extractPages] using ih (i + 1)

/-- The first visited index of an array of present entries. -/
theorem extractPages_map_some_head : ∀ (ps : List (List String)) (i : Nat), ps ≠ [] →
    ((extractPages i (ps.map some)).head?.map Prod.fst) = some i := by
  intro ps i h
  cases ps with
  | nil => exact absurd rfl h
  | cons p rest => rfl

/-- Consecutive indices over an array of present entries. -/
theorem extractPages_map_some_chain : ∀ (ps : List (List String)) (i : Nat),
    List.Chain' (fun a b : Nat × List String => b.1 = a.1 + 1)
      (extractPages i (ps.map some)) := by
  intro ps
  induction ps with
  | nil => intro i; simp [extractPages]
  | cons p rest ih =>
    intro i
    cases rest with
    | nil => simp [extractPages]
    | cons q qs =>
      refine List.Chain'.cons rfl ?_
      exact ih (i + 1)

/-- The `enumFrom` projection to the elements. -/
theorem enumFrom_snd : ∀ (l : List α) (n : Nat),
    (List.enumFrom n l).map Prod.snd = l := by
  intro l
  induction l with
  | nil => intro n; rfl
  | cons x xs ih => intro n; simp [List.enumFrom, ih (n + 1)]

/-- The invariant of the paginator's reduce: either nothing has been
assigned yet, or the accumulator is a possible initial hole followed by
the pages in order, the counter points at the last slot, and the pages'
lines concatenate to the lines processed so far. -/
def PgInv (processed : List String) (s : PgState) : Prop :=
  (s.acc = [] ∧ s.pageCounter = 0 ∧ processed = []) ∨
  ∃ (hole : Bool) (ps : List (List String)), ps ≠ [] ∧
    s.acc = (if hole then [none] else []) ++ ps.map some ∧
    s.acc.length = s.pageCounter + 1 ∧
    ps.flatten = processed

/-- A string whose first-newline removal is empty is empty or a lone
newline. -/
theorem removeFirstNewlineAux_eq_nil : ∀ l : List Char,
    removeFirstNewlineAux l = [] → l = [] ∨ l = ['\n'] := by
  intro l
  cases l with
  | nil => intro _; exact Or.inl rfl
  | cons c cs =>
    intro h
    by_cases hc : c = '\n'
    · subst hc
      simp [removeFirstNewlineAux] at h
      exact Or.inr (by rw [h])
    · simp [removeFirstNewlineAux, hc] at h

/-- A nonempty string has a nonempty character list. -/
theorem data_length_pos (s : String) (h : s ≠ "") : 0 < s.data.length := by
  cases s with
  | mk d =>
    cases d with
    | nil => exact absurd rfl h
    | cons c cs => simp

/-- One reduce step preserves the paginator invariant, consuming one more
line. -/
theorem PgInv_step (env : Env) (yOffset : ℚ) (s : PgState) (idx : Nat) (cur : String)
    (processed : List String) (h : PgInv processed s) :
    PgInv (processed ++ [cur]) (lineReduceStep env yOffset s (idx, cur)) := by
  by_cases hbr :
      env.pageHeight - mm2pt s.yTopMm - yOffset -
          env.lineHeight * env.fontSize * ((idx : ℚ) - (s.indexOffset : ℚ)) ≤
        env.pageHeight - mm2pt s.yBottomMm
  · -- a new page is opened
    have hstep : lineReduceStep env yOffset s (idx, cur) =
        { pageCounter := s.pageCounter + 1
          indexOffset := idx
          yTopMm := topMarginMm
          yBottomMm := pageHeightMm - bottomMarginMm
          acc := setIdx s.acc (s.pageCounter + 1) [cur] } := by
      simp only [lineReduceStep, if_pos hbr]
    rcases h with ⟨hacc, hpc, hpr⟩ | ⟨hole, ps, hne, hacc, hlen, hjoin⟩
    · refine Or.inr ⟨true, [[cur]], by simp, ?_, ?_, ?_⟩
      · rw [hstep]; rw [hacc, hpc]; rfl
      · rw [hstep]; rw [hacc, hpc]; rfl
      · simp [hpr]
    · refine Or.inr ⟨hole, ps ++ [[cur]], by simp, ?_, ?_, ?_⟩
      · rw [hstep]
        show setIdx s.acc (s.pageCounter + 1) [cur] = _
        rw [← hlen, setIdx_append_length, hacc]
        simp
      · rw [hstep]
        show (setIdx s.acc (s.pageCounter + 1) [cur]).length = s.pageCounter + 1 + 1
        rw [← hlen, setIdx_append_length]
        simp [hlen]
      · simp [hjoin]
  · -- the line joins the current page
    have hstep : lineReduceStep env yOffset s (idx, cur) =
        { s with
          acc :=
            match getIdx s.acc s.pageCounter with
            | some page => setIdx s.acc s.pageCounter (page ++ [cur])
            | none => setIdx s.acc s.pageCounter [cur] } := by
      simp only [lineReduceStep, if_neg hbr]
    rcases h with ⟨hacc, hpc, hpr⟩ | ⟨hole, ps, hne, hacc, hlen, hjoin⟩
    · have hget : getIdx s.acc s.pageCounter = none := by rw [hacc, hpc]; rfl
      refine Or.inr ⟨false, [[cur]], by simp, ?_, ?_, ?_⟩
      · rw [hstep]
        show (match getIdx s.acc s.pageCounter with
              | some page => setIdx s.acc s.pageCounter (page ++ [cur])
              | none => setIdx s.acc s.pageCounter [cur]) = _
        rw [hget, hacc, hpc]
        rfl
      · rw [hstep]
        show (match getIdx s.acc s.pageCounter with
              | some page => setIdx s.acc s.pageCounter (page ++ [cur])
              | none => setIdx s.acc s.pageCounter [cur]).length = _
        rw [hget, hacc, hpc]
        rfl
      · simp [hpr]
    · rcases List.eq_nil_or_concat ps with rfl | ⟨qs, lastP, rfl⟩
      · exact absurd rfl hne
      · have hacc' : s.acc = ((if hole then [none] else []) ++ qs.map some) ++
            some lastP :: [] := by
          rw [hacc]; simp [List.concat_eq_append]
        have hl : ((if hole then [none] else []) ++ qs.map some).length = s.pageCounter := by
          have hthis := hlen
          rw [hacc'] at hthis
          simp at hthis ⊢
          omega
        have hget : getIdx s.acc s.pageCounter = some lastP := by
          rw [hacc', ← hl]
          exact getIdx_append _ _ _
        have hset : setIdx s.acc s.pageCounter (lastP ++ [cur]) =
            ((if hole then [none] else []) ++ qs.map some) ++ some (lastP ++ [cur]) :: [] := by
          rw [hacc', ← hl]
          exact setIdx_append _ _ _ _
        refine Or.inr ⟨hole, qs ++ [lastP ++ [cur]], by simp, ?_, ?_, ?_⟩
        · rw [hstep]
          show (match getIdx s.acc s.pageCounter with
                | some page => setIdx s.acc s.pageCounter (page ++ [cur])
                | none => setIdx s.acc s.pageCounter [cur]) = _
          rw [hget]
          show setIdx s.acc s.pageCounter (lastP ++ [cur]) = _
          rw [hset]
          simp
        · rw [hstep]
          show (match getIdx s.acc s.pageCounter with
                | some page => setIdx s.acc s.pageCounter (page ++ [cur])
                | none => setIdx s.acc s.pageCounter [cur]).length = s.pageCounter + 1
          rw [hget]
          show (setIdx s.acc s.pageCounter (lastP ++ [cur])).length = s.pageCounter + 1
          rw [hset]
          have hthis := hlen
          rw [hacc'] at hthis
          simp at hthis ⊢
          omega
        · rw [← hjoin]
          simp [List.concat_eq_append]

/-- Folding the reduce over any line list preserves the paginator
invariant. -/
theorem PgInv_foldl (env : Env) (yOffset : ℚ) :
    ∀ (l : List (Nat × String)) (s : PgState) (processed : List String),
      PgInv processed s →
      PgInv (processed ++ l.map Prod.snd) (l.foldl (lineReduceStep env yOffset) s) := by
  intro l
  induction l with
  | nil => intro s processed h; simpa using h
  | cons p rest ih =>
    intro s processed h
    have h1 : PgInv (processed ++ [p.2]) (lineReduceStep env yOffset s p) :=
      PgInv_step env yOffset s p.1 p.2 processed h
    have h2 := ih (lineReduceStep env yOffset s p) (processed ++ [p.2]) h1
    simpa [List.append_assoc] using h2

/-- C3: one reduce step of the paginator opens a new page exactly when
the candidate baseline (top bound + vertical-alignment offset +
`lineHeight×fontSize×(i − firstIndexOfCurrentPage)`) falls at or beyond
the current page's bottom bound; on a break the page index grows by one,
the bounds reset to the continuation constants (20mm top margin, bottom
bound 297mm − 20mm), the line becomes the sole content of the new page
and its index becomes the new page's first index; otherwise the state's
bounds and counter are unchanged; the initial state carries the caller's
box-relative top/bottom bounds. -/
theorem C3_paginator_transition (env : Env) (yOffset : ℚ) (s : PgState) (idx : Nat)
    (cur : String) :
    ((lineReduceStep env yOffset s (idx, cur)).pageCounter = s.pageCounter + 1 ↔
      mm2pt s.yBottomMm ≤ mm2pt s.yTopMm + yOffset +
        env.lineHeight * env.fontSize * ((idx : ℚ) - (s.indexOffset : ℚ))) ∧
    (mm2pt s.yBottomMm ≤ mm2pt s.yTopMm + yOffset +
        env.lineHeight * env.fontSize * ((idx : ℚ) - (s.indexOffset : ℚ)) →
      (lineReduceStep env yOffset s (idx, cur)).yTopMm = 20 ∧
      (lineReduceStep env yOffset s (idx, cur)).yBottomMm = 297 - 20 ∧
      getIdx (lineReduceStep env yOffset s (idx, cur)).acc (s.pageCounter + 1) =
        some [cur] ∧
      (lineReduceStep env yOffset s (idx, cur)).indexOffset = idx) ∧
    (¬ mm2pt s.yBottomMm ≤ mm2pt s.yTopMm + yOffset +
        env.lineHeight * env.fontSize * ((idx : ℚ) - (s.indexOffset : ℚ)) →
      (lineReduceStep env yOffset s (idx, cur)).pageCounter = s.pageCounter ∧
      (lineReduceStep env yOffset s (idx, cur)).yTopMm = s.yTopMm ∧
      (lineReduceStep env yOffset s (idx, cur)).yBottomMm = s.yBottomMm ∧
      (lineReduceStep env yOffset s (idx, cur)).indexOffset = s.indexOffset) ∧
    ((initState env).yTopMm = env.positionY ∧
      (initState env).yBottomMm = env.positionY + env.heightMm) := by
  have hiff :
      (env.pageHeight - mm2pt s.yTopMm - yOffset -
          env.lineHeight * env.fontSize * ((idx : ℚ) - (s.indexOffset : ℚ)) ≤
        env.pageHeight - mm2pt s.yBottomMm) ↔
      mm2pt s.yBottomMm ≤ mm2pt s.yTopMm + yOffset +
        env.lineHeight * env.fontSize * ((idx : ℚ) - (s.indexOffset : ℚ)) := by
    constructor <;> intro h <;> linarith
  by_cases hbr :
      env.pageHeight - mm2pt s.yTopMm - yOffset -
          env.lineHeight * env.fontSize * ((idx : ℚ) - (s.indexOffset : ℚ)) ≤
        env.pageHeight - mm2pt s.yBottomMm
  · have hstep : lineReduceStep env yOffset s (idx, cur) =
        { pageCounter := s.pageCounter + 1
          indexOffset := idx
          yTopMm := topMarginMm
          yBottomMm := pageHeightMm - bottomMarginMm
          acc := setIdx s.acc (s.pageCounter + 1) [cur] } := by
      simp only [lineReduceStep, if_pos hbr]
    refine ⟨?_, ?_, ?_, rfl, rfl⟩
    · rw [hstep]
      exact iff_of_true rfl (hiff.mp hbr)
    · intro _
      rw [hstep]
      refine ⟨?_, ?_, getIdx_setIdx _ _ _, rfl⟩
      · show topMarginMm = 20; rfl
      · show pageHeightMm - bottomMarginMm = 297 - 20; rfl
    · intro hc
      exact absurd (hiff.mp hbr) hc
  · have hstep : lineReduceStep env yOffset s (idx, cur) =
        { s with
          acc :=
            match getIdx s.acc s.pageCounter with
            | some page => setIdx s.acc s.pageCounter (page ++ [cur])
            | none => setIdx s.acc s.pageCounter [cur] } := by
      simp only [lineReduceStep, if_neg hbr]
    refine ⟨?_, ?_, ?_, rfl, rfl⟩
    · rw [hstep]
      exact iff_of_false (by simp) (fun hc => hbr (hiff.mpr hc))
    · intro hc
      exact absurd hc (fun hc => hbr (hiff.mpr hc))
    · intro _
      rw [hstep]
      exact ⟨rfl, rfl, rfl, rfl⟩

unseal Rat.ofScientific Rat.mul Rat.add Rat.sub Rat.inv in
/-- C3 witness: a concrete break step resets the continuation bounds and
starts the new page with the triggering line. -/
theorem C3_paginator_transition_witness :
    (lineReduceStep envJ 10 ⟨0, 0, 0, 1, []⟩ (3, "x")).yTopMm = 20 ∧
    (lineReduceStep envJ 10 ⟨0, 0, 0, 1, []⟩ (3, "x")).indexOffset = 3 ∧
    getIdx (lineReduceStep envJ 10 ⟨0, 0, 0, 1, []⟩ (3, "x")).acc 1 = some ["x"] := by
  have h := (C3_paginator_transition envJ 10 ⟨0, 0, 0, 1, []⟩ 3 "x").2.1 (by decide)
  exact ⟨h.1, h.2.2.2, h.2.2.1⟩

unseal Rat.ofScientific Rat.mul Rat.add Rat.sub Rat.inv in
/-- C4 counterexample: with a 1mm-high box the very first line already
falls beyond the first page's bottom bound, so page index 0 is skipped
and the produced page indices start at 1, not 0. -/
theorem C4_counterexample :
    pagesOf envC4 "a" = [(1, ["a"])] ∧ ∀ p ∈ pagesOf envC4 "a", p.1 ≠ 0 := by
  decide

/-- C4 (amended): the produced page indices are strictly increasing and
consecutive, and concatenating the pages' line lists in page order yields
the wrapped lines in their original order; the first page index is 0 or
1 (1 exactly in the degenerate case where the first line already
overflows the caller's box, in which case page 0 is skipped). -/
theorem C4_pagination_monotone (env : Env) (value : String) :
    List.Chain' (fun a b : Nat × List String => b.1 = a.1 + 1) (pagesOf env value) ∧
    ((pagesOf env value).map Prod.snd).flatten = linesOf env value ∧
    ((pagesOf env value).head?.map Prod.fst).getD 0 ≤ 1 := by
  have hinv : PgInv ([] ++ ((linesOf env value).enum).map Prod.snd)
      (((linesOf env value).enum).foldl (lineReduceStep env (yOffsetOf env value))
        (initState env)) :=
    PgInv_foldl env (yOffsetOf env value) ((linesOf env value).enum) (initState env) []
      (Or.inl ⟨rfl, rfl, rfl⟩)
  have hsnd : ((linesOf env value).enum).map Prod.snd = linesOf env value :=
    enumFrom_snd _ 0
  rw [List.nil_append, hsnd] at hinv
  have hpages : pagesOf env value =
      extractPages 0 (((linesOf env value).enum).foldl
        (lineReduceStep env (yOffsetOf env value)) (initState env)).acc := rfl
  rcases hinv with ⟨hacc, _, hpr⟩ | ⟨hole, ps, hne, hacc, _, hjoin⟩
  · rw [hpages, hacc]
    refine ⟨by simp [extractPages], ?_, by simp [extractPages]⟩
    simp [extractPages, ← hpr]
  · cases hole with
    | false =>
      simp only [Bool.false_eq_true, if_false, List.nil_append] at hacc
      rw [hpages, hacc]
      refine ⟨extractPages_map_some_chain ps 0, ?_, ?_⟩
      · rw [extractPages_map_some_snd, hjoin]
      · rw [extractPages_map_some_head ps 0 hne]
        decide
    | true =>
      simp only [if_pos, List.singleton_append] at hacc
      rw [hpages, hacc]
      have hex : extractPages 0 (none :: ps.map some) =
          extractPages 1 (ps.map some) := rfl
      rw [hex]
      refine ⟨extractPages_map_some_chain ps 1, ?_, ?_⟩
      · rw [extractPages_map_some_snd, hjoin]
      · rw [extractPages_map_some_head ps 1 hne]
        decide

/-- C5: the first-line baseline offset of the vertical alignment
calculator matches the specified closed form for each vertical
alignment, with the half-line adjustment vanishing when
`lineHeight = 0`. -/
theorem C5_vertical_offset (env : Env) (n : Nat) :
    calcYOffset env n =
      match env.verticalAlignment with
      | VAlign.top => env.firstLineTextHeight +
          (if env.lineHeight = 0 then 0 else (env.lineHeight - 1) * env.fontSize / 2)
      | VAlign.bottom => env.height - ((n : ℚ) - 1) * env.lineHeight * env.fontSize +
          env.descent -
          (if env.lineHeight = 0 then 0 else (env.lineHeight - 1) * env.fontSize / 2)
      | VAlign.middle => (env.height - ((n : ℚ) - 1) * env.lineHeight * env.fontSize -
          env.firstLineTextHeight + env.descent) / 2 + env.firstLineTextHeight := by
  cases hva : env.verticalAlignment <;>
    simp only [calcYOffset, halfLineHeightAdjustment, hva] <;>
    simp <;> ring_nf

/-- Every page's operation block contains its footer marker, and its
header marker when it is a continuation page. -/
theorem marker_mem_renderPageOps (env : Env) (yOffset : ℚ) (curLen k : Nat)
    (ls : List String) :
    markerFooter k ∈ renderPageOps env yOffset curLen k ls ∧
    (k ≠ 0 → markerHeader env k ∈ renderPageOps env yOffset curLen k ls) := by
  unfold renderPageOps
  by_cases hk : k = 0 <;> simp [hk]

/-- The emitted operation stream contains the marker rectangles of every
page the paginator produced. -/
theorem marker_mem_emitAllPages (env : Env) (yOffset : ℚ) :
    ∀ (pgs : List (Nat × List String)) (curLen k : Nat) (ls : List String),
      (k, ls) ∈ pgs →
      markerFooter k ∈ emitAllPages env yOffset curLen pgs ∧
      (k ≠ 0 → markerHeader env k ∈ emitAllPages env yOffset curLen pgs) := by
  intro pgs
  induction pgs with
  | nil => intro curLen k ls h; simp at h
  | cons p rest ih =>
    intro curLen k ls h
    have hemit : emitAllPages env yOffset curLen (p :: rest) =
        renderPageOps env yOffset curLen p.1 p.2 ++
          emitAllPages env yOffset
            (if p.1 ≠ 0 ∧ curLen ≤ p.1 then curLen + 1 else curLen) rest := rfl
    rcases List.mem_cons.mp h with heq | hmem
    · rw [hemit, ← heq]
      have hr := marker_mem_renderPageOps env yOffset curLen k ls
      exact ⟨List.mem_append_left _ hr.1,
        fun hk => List.mem_append_left _ (hr.2 hk)⟩
    · rw [hemit]
      have hr := ih (if p.1 ≠ 0 ∧ curLen ≤ p.1 then curLen + 1 else curLen) k ls hmem
      exact ⟨List.mem_append_right _ hr.1,
        fun hk => List.mem_append_right _ (hr.2 hk)⟩

unseal Rat.ofScientific Rat.mul Rat.add Rat.sub Rat.inv in
/-- C1 counterexample: for the justified, non-terminal, three-grapheme
line `"ab "` of `"ab cd"` (box width 40, measured width 30, base spacing
0) the code pushes spacing `10/3` (divisor: the grapheme count 3), while
the claim's formula `(boxWidth − measuredWidth)/(graphemeCount − 1)`
yields `5`. -/
theorem C1_counterexample :
    pagesOf envJ "ab cd" = [(0, ["ab ", "cd"])] ∧
    (pdfRenderOps envJ (some "ab cd"))[1]? = some (Op.setCharSpacing 0 (10 / 3)) ∧
    (10 / 3 : ℚ) ≠ envJ.characterSpacing +
      (envJ.width - envJ.measure (removeFirstNewline "ab ")) /
        ((envJ.gcount (removeFirstNewline "ab ") : ℚ) - 1) := by
  refine ⟨by decide, by decide, by decide⟩

/-- C1 (amended): for every line drawn with `alignment = justify` whose
(possibly reassigned) content does not end in `'\n'`, the pushed
character spacing is the base spacing plus
`(boxWidth − measuredWidth) / graphemeCount` — the divisor is the
grapheme count itself, not `graphemeCount − 1` — computed afresh from the
base spacing for that line only. -/
theorem C1_justify_spacing (env : Env) (pg : Nat) (yTopMm yOffset : ℚ) (rowIndex : Nat)
    (line : String) (h1 : env.alignment = Alignment.justify)
    (h2 : (if line = "" then "\r\n" else line).data.getLast? ≠ some '\n') :
    (renderLineOps env pg yTopMm yOffset rowIndex line)[0]? =
      some (Op.setCharSpacing pg (env.characterSpacing +
        (env.width - env.measure (removeFirstNewline line)) /
          (env.gcount (removeFirstNewline line) : ℚ))) := by
  simp only [renderLineOps, spacingOf]
  rw [if_pos ⟨h1, h2⟩]
  rfl

unseal Rat.ofScientific Rat.mul Rat.add Rat.sub Rat.inv in
/-- C1 witness: the amended spacing formula instantiated on the concrete
justified line `"ab "`. -/
theorem C1_justify_spacing_witness :
    (renderLineOps envJ 0 0 10 0 "ab ")[0]? =
      some (Op.setCharSpacing 0 (envJ.characterSpacing +
        (envJ.width - envJ.measure (removeFirstNewline "ab ")) /
          (envJ.gcount (removeFirstNewline "ab ") : ℚ))) :=
  C1_justify_spacing envJ 0 0 10 0 "ab " rfl (by decide)

unseal Rat.ofScientific Rat.mul Rat.add Rat.sub Rat.inv in
/-- C2 counterexample: for the value `"ab"` the single wrapped line
`"ab"` is the terminal line of the text, yet with `alignment = justify`
it is drawn with spacing 10, not the base spacing 0: the terminal line
is stretched. -/
theorem C2_counterexample :
    linesOf envJ "ab" = ["ab"] ∧
    (pdfRenderOps envJ (some "ab"))[1]? = some (Op.setCharSpacing 0 10) ∧
    (10 : ℚ) ≠ envJ.characterSpacing := by
  refine ⟨by decide, by decide, by decide⟩

/-- C2 (amended): a line ending in an explicit break (`'\n'`) is always
drawn with the base character spacing; only such lines are exempt — the
last line overall is stretched under `justify` whenever it does not end
in `'\n'`. -/
theorem C2_newline_terminated_not_stretched (env : Env) (pg : Nat) (yTopMm yOffset : ℚ)
    (rowIndex : Nat) (line : String) (h : line.data.getLast? = some '\n') :
    (renderLineOps env pg yTopMm yOffset rowIndex line)[0]? =
      some (Op.setCharSpacing pg env.characterSpacing) := by
  have hne : line ≠ "" := by
    intro he
    rw [he] at h
    simp at h
  simp only [renderLineOps, spacingOf]
  rw [if_neg]
  · rfl
  · rintro ⟨-, h2⟩
    rw [if_neg hne] at h2
    exact h2 h

/-- C2 witness: the explicit-break line `"a\n"` is drawn with the base
character spacing. -/
theorem C2_newline_terminated_not_stretched_witness :
    (renderLineOps envJ 0 0 10 0 "a\n")[0]? =
      some (Op.setCharSpacing 0 envJ.characterSpacing) :=
  C2_newline_terminated_not_stretched envJ 0 0 10 0 "a\n" (by decide)

unseal Rat.ofScientific Rat.mul Rat.add Rat.sub Rat.inv in
/-- C6 counterexample: the single-grapheme justified line `"a"` (box
width 40, measured width 10) is stretched — the code pushes spacing 30,
not the base spacing 0 — so there is no `graphemeCount ≤ 1` guard that
suppresses stretching. -/
theorem C6_counterexample :
    (pdfRenderOps envJ (some "a"))[1]? = some (Op.setCharSpacing 0 30) ∧
    envJ.gcount (removeFirstNewline "a") = 1 ∧
    (30 : ℚ) ≠ envJ.characterSpacing := by
  refine ⟨by decide, by decide, by decide⟩

/-- C6 (amended): the `lineHeight = 0` division is guarded by an explicit
branch; the justification division needs no `graphemeCount ≤ 1` guard
because its divisor is the grapheme count itself and, for any segmenter
that counts nonempty strings positively, a line reaching the
justification branch has a nonempty trimmed text, hence a positive
divisor — but a single-grapheme justified line is stretched, not left at
base spacing. -/
theorem C6_division_guards (env : Env) (line : String)
    (hseg : ∀ s : String, s ≠ "" → 0 < env.gcount s) :
    (env.lineHeight = 0 → halfLineHeightAdjustment env = 0) ∧
    (env.alignment = Alignment.justify →
      (if line = "" then "\r\n" else line).data.getLast? ≠ some '\n' →
      0 < env.gcount (removeFirstNewline line)) := by
  constructor
  · intro h
    simp [halfLineHeightAdjustment, h]
  · intro _ hlast
    apply hseg
    intro hempty
    by_cases hl : line = ""
    · rw [if_pos hl] at hlast
      exact hlast (by decide)
    · rw [if_neg hl] at hlast
      have hdata : removeFirstNewlineAux line.data = [] := by
        have : (removeFirstNewline line).data = [] := by rw [hempty]
        simpa [removeFirstNewline] using this
      rcases removeFirstNewlineAux_eq_nil line.data hdata with hnil | hone
      · exact hl (by cases line with | mk d => cases hnil; rfl)
      · rw [hone] at hlast
        exact hlast (by decide)

/-- C6 witness: `halfLineHeightAdjustment` vanishes when `lineHeight = 0`,
and the justified single-grapheme line `"a"` has a positive divisor. -/
theorem C6_division_guards_witness :
    0 < envJ.gcount (removeFirstNewline "a") ∧
    ({ envJ with lineHeight := 0 }.lineHeight = 0 →
      halfLineHeightAdjustment { envJ with lineHeight := 0 } = 0) := by
  refine ⟨?_, (C6_division_guards { envJ with lineHeight := 0 } "a"
    (fun s hs => data_length_pos s hs)).1⟩
  exact (C6_division_guards envJ "a" (fun s hs => data_length_pos s hs)).2 rfl (by decide)

/-- C7: the horizontal draw position of every line is box x for `left`,
box x + (boxWidth − lineWidth)/2 for `center`, and
box x + boxWidth − lineWidth for `right`, where lineWidth is the measured
width of the drawn text (and `justify` keeps box x). -/
theorem C7_horizontal_position (env : Env) (pg : Nat) (yTopMm yOffset : ℚ)
    (rowIndex : Nat) (line : String) :
    (renderLineOps env pg yTopMm yOffset rowIndex line)[1]? =
      some (Op.drawText pg (removeFirstNewline line)
        (match env.alignment with
         | Alignment.left => env.x
         | Alignment.center =>
             env.x + (env.width - env.measure (removeFirstNewline line)) / 2
         | Alignment.right => env.x + env.width - env.measure (removeFirstNewline line)
         | Alignment.justify => env.x)
        (yLineOf env yTopMm yOffset rowIndex) env.fontSize
        (env.lineHeight * env.fontSize)) := by
  cases ha : env.alignment <;> simp [renderLineOps, xLineOf, ha]

/-- C8: an absent or empty value is a no-op, not an error: no operation
is emitted (no background, no page additions, no draws) and the
paginator produces zero pages. -/
theorem C8_empty_value_noop (env : Env) :
    pdfRenderOps env none = [] ∧ pdfRenderOps env (some "") = [] ∧
    pagesOf env "" = [] := by
  refine ⟨rfl, ?_, rfl⟩
  simp [pdfRenderOps]

/-- C9: the drawn text of every line is the line with only the first
occurrence of `'\n'` removed (computed before the empty-line
reassignment); for the empty line the reassigned `"\r\n"` ends in `'\n'`
so the justification branch is skipped, yet the text passed to
`drawText` is still the empty string. -/
theorem C9_drawn_text (env : Env) (pg : Nat) (yTopMm yOffset : ℚ) (rowIndex : Nat)
    (line : String) :
    (renderLineOps env pg yTopMm yOffset rowIndex line)[1]? =
      some (Op.drawText pg (removeFirstNewline line)
        (xLineOf env (env.measure (removeFirstNewline line)))
        (yLineOf env yTopMm yOffset rowIndex) env.fontSize
        (env.lineHeight * env.fontSize)) ∧
    removeFirstNewline "" = "" ∧
    ((if ("" : String) = "" then "\r\n" else "").data.getLast? = some '\n') ∧
    spacingOf env "" = env.characterSpacing ∧
    removeFirstNewline "a\n\nb" = "a\nb" := by
  refine ⟨by simp [renderLineOps], rfl, by decide, ?_, by decide⟩
  simp only [spacingOf]
  rw [if_neg]
  rintro ⟨-, h2⟩
  exact h2 (by decide)

/-- C10: whenever the paginator assigns lines to a page, that page
receives its marker rectangles unconditionally — the footer marker at
(10mm, 10mm), 190mm × 5mm, border width 1, on every page including the
first, and additionally the header marker of the same size on every
continuation page. -/
theorem C10_marker_rectangles (env : Env) (value : String) (k : Nat) (ls : List String)
    (h : (k, ls) ∈ pagesOf env value) :
    (k = 0 → markerFooter 0 ∈ pdfRenderOps env (some value)) ∧
    (k ≠ 0 → markerHeader env k ∈ pdfRenderOps env (some value) ∧
      markerFooter k ∈ pdfRenderOps env (some value)) := by
  by_cases hv : value = ""
  · rw [hv] at h
    have hnil : pagesOf env "" = [] := rfl
    rw [hnil] at h
    simp at h
  · have hops : pdfRenderOps env (some value) =
        (if env.backgroundColor then [Op.fillRect env.x env.yPt env.width env.height]
         else []) ++
          emitAllPages env (yOffsetOf env value) env.initialPages (pagesOf env value) := by
      simp [pdfRenderOps, hv]
    have hm := marker_mem_emitAllPages env (yOffsetOf env value) (pagesOf env value)
      env.initialPages k ls h
    rw [hops]
    exact ⟨fun hk => by rw [← hk]; exact List.mem_append_right _ hm.1,
      fun hk => ⟨List.mem_append_right _ (hm.2 hk), List.mem_append_right _ hm.1⟩⟩

unseal Rat.ofScientific Rat.mul Rat.add Rat.sub Rat.inv in
/-- C10 witness: in a concrete two-page run, page 0 receives its footer
marker and continuation page 1 receives its header marker. -/
theorem C10_marker_rectangles_witness :
    markerFooter 0 ∈ pdfRenderOps envW (some "a\nb\nc\nd\ne\nf") ∧
    markerHeader envW 1 ∈ pdfRenderOps envW (some "a\nb\nc\nd\ne\nf") := by
  refine ⟨(C10_marker_rectangles envW "a\nb\nc\nd\ne\nf" 0
      ["a\n", "b\n", "c\n", "d\n", "e\n"] (by decide)).1 rfl, ?_⟩
  exact ((C10_marker_rectangles envW "a\nb\nc\nd\ne\nf" 1 ["f"] (by decide)).2
    (by decide)).1

end FlowingText
